import Mathlib

/-!
Verification of the ANTLR syntax-highlighting grammar and its page-initialization
glue from a static-blog repository.

The grammar definition (`antlrLanguage`) is transcribed rule-for-rule from the
source file: every `begin`/`end` regular expression of the source becomes a named
matcher function, every mode object becomes a `Mode` value with the same
`className`, `contains` list (in source order), `returnEnd` flag and `relevance`.

The highlighting engine that consumes the grammar is an external library, so its
scanning semantics is modelled from the specification: at each position the
contained rules are tried in declaration order (earlier rule wins), a begin/end
rule opens a nested span scanned with its own `contains` list, `"self"` entries
recurse into the enclosing rule, keyword classification applies to plain text at
the top level using the declared `$pattern`, and relevance weights play no role
in tokenization (they only matter for cross-language auto-detection).
-/

namespace Site

/-! ### Character classes used by the source regexes -/

def isLowerAZ (c : Char) : Bool := 'a' ≤ c && c ≤ 'z'

def isUpperAZ (c : Char) : Bool := 'A' ≤ c && c ≤ 'Z'

def isDigit09 (c : Char) : Bool := '0' ≤ c && c ≤ '9'

/-- Class `[a-zA-Z0-9_]`, the word-character class of the source regexes. -/
def isWordChar (c : Char) : Bool := isLowerAZ c || isUpperAZ c || isDigit09 c || c = '_'

/-- Class `[a-zA-Z_]`. -/
def isIdentStart (c : Char) : Bool := isLowerAZ c || isUpperAZ c || c = '_'

/-- Class `[A-Z0-9_]`, the continuation class of the TOKEN_NAME regex. -/
def isTokenChar (c : Char) : Bool := isUpperAZ c || isDigit09 c || c = '_'

/-- Whitespace as matched by the source regexes. -/
def isJsSpace (c : Char) : Bool := c = ' ' || c = '\t' || c = '\n' || c = '\r'

/-- With the engine's multiline flag, `^` matches at the start of input and
right after a newline. -/
def atLineStart : Option Char → Bool
  | none => true
  | some c => c = '\n'

/-- A word boundary `\b` immediately before a word character: the previous
character, if any, is not a word character. -/
def boundaryBefore : Option Char → Bool
  | none => true
  | some c => !isWordChar c

/-- No word character starts `s` (used for a trailing `\b` after a word). -/
def noWordAhead : List Char → Bool
  | [] => true
  | c :: _ => !isWordChar c

/-! ### Matchers

A matcher receives the character just before the current position (for `^` and
`\b` anchors) and the remaining input, and returns the length of the match at
the current position, if any. One matcher per source regex. -/

abbrev Matcher := Option Char → List Char → Option Nat

/-- Match a single literal character. -/
def matchLit (a : Char) : Matcher := fun _ s =>
  match s with
  | c :: _ => if c = a then some 1 else none
  | [] => none

/-- Match a literal character sequence, returning its length. -/
def litList : List Char → List Char → Option Nat
  | [], _ => some 0
  | a :: as, c :: cs => if c = a then (litList as cs).map (· + 1) else none
  | _ :: _, [] => none

def matchLits (lit : List Char) : Matcher := fun _ s => litList lit s

/-- One of a set of single characters (a regex character class). -/
def matchAnyOf (cs : List Char) : Matcher := fun _ s =>
  match s with
  | c :: _ => if cs.contains c then some 1 else none
  | [] => none

/-- Regex `^[a-z][a-zA-Z0-9_]*` (RULE_NAME's begin). -/
def matchRuleName : Matcher := fun prev s =>
  if atLineStart prev then
    match s with
    | c :: rest => if isLowerAZ c then some (1 + (rest.takeWhile isWordChar).length) else none
    | [] => none
  else none

/-- Regex `[A-Z][A-Z0-9_]*` (TOKEN_NAME's begin). -/
def matchTokenName : Matcher := fun _ s =>
  match s with
  | c :: rest => if isUpperAZ c then some (1 + (rest.takeWhile isTokenChar).length) else none
  | [] => none

/-- Regex of the library's backslash-escape rule: a backslash followed by any character. -/
def matchBackslashEscape : Matcher := fun _ s =>
  match s with
  | c :: _ :: _ => if c = '\\' then some 2 else none
  | _ => none

/-- Regex of an escaped character: a backslash then any character but a newline. -/
def matchEscapedAny : Matcher := fun _ s =>
  match s with
  | c :: d :: _ => if c = '\\' then (if d = '\n' then none else some 2) else none
  | _ => none

/-- Regex `options` then whitespace then an opening brace (OPTION's begin). -/
def matchOptionsBrace : Matcher := fun _ s =>
  match litList ['o', 'p', 't', 'i', 'o', 'n', 's'] s with
  | some _ =>
    let rest := s.drop 7
    let ws := (rest.takeWhile isJsSpace).length
    match rest.drop ws with
    | '{' :: _ => some (7 + ws + 1)
    | _ => none
  | none => none

/-- Regex `@[a-zA-Z_][a-zA-Z0-9_]*` (HEADER's begin and its meta-keyword). -/
def matchHeaderAt : Matcher := fun _ s =>
  match s with
  | a :: c :: rest =>
    if a = '@' then
      if isIdentStart c then some (2 + (rest.takeWhile isWordChar).length) else none
    else none
  | _ => none

/-- Regex of OPTION's meta-keyword: a word boundary, an identifier, whitespace, `=`. -/
def matchMetaAssign : Matcher := fun prev s =>
  if boundaryBefore prev then
    match s with
    | c :: rest =>
      if isIdentStart c then
        let idLen := 1 + (rest.takeWhile isWordChar).length
        let after := s.drop idLen
        let ws := (after.takeWhile isJsSpace).length
        match after.drop ws with
        | '=' :: _ => some (idLen + ws + 1)
        | _ => none
      else none
    | [] => none
  else none

/-- Regex of GRAMMAR_TYPE's begin: `grammar`, `lexer grammar` or `parser grammar`
between word boundaries; alternatives are tried in source order. -/
def matchGrammarType : Matcher := fun prev s =>
  if boundaryBefore prev then
    match litList ['g', 'r', 'a', 'm', 'm', 'a', 'r'] s with
    | some _ => if noWordAhead (s.drop 7) then some 7 else none
    | none =>
      let tryCompound (word : List Char) : Option Nat :=
        match litList word s with
        | some _ =>
          let rest := s.drop word.length
          let ws := (rest.takeWhile isJsSpace).length
          if ws = 0 then none
          else
            match litList ['g', 'r', 'a', 'm', 'm', 'a', 'r'] (rest.drop ws) with
            | some _ =>
              let total := word.length + ws + 7
              if noWordAhead (s.drop total) then some total else none
            | none => none
        | none => none
      match tryCompound ['l', 'e', 'x', 'e', 'r'] with
      | some n => some n
      | none => tryCompound ['p', 'a', 'r', 's', 'e', 'r']
  else none

/-- Regex `$` under the multiline flag: a zero-width match at a newline or at the
end of input (the line-comment terminator). -/
def matchDollar : Matcher := fun _ s =>
  match s with
  | [] => some 0
  | c :: _ => if c = '\n' then some 0 else none

/-! ### The mode data model

A `Mode` mirrors one rule object of the grammar: display class, begin matcher,
optional end matcher, the `returnEnd` flag, the nested `contains` list in source
order (`none` standing for the source's `"self"`), and the declared relevance
weight. -/

inductive Mode : Type where
  | mk (className : Option String)
       (beginM : Matcher)
       (endM : Option Matcher)
       (returnEnd : Bool)
       (contains : List (Option Mode))
       (relevance : Nat)

def Mode.className : Mode → Option String
  | .mk c _ _ _ _ _ => c

def Mode.beginM : Mode → Matcher
  | .mk _ b _ _ _ _ => b

def Mode.endM : Mode → Option Matcher
  | .mk _ _ e _ _ _ => e

def Mode.returnEnd : Mode → Bool
  | .mk _ _ _ r _ _ => r

def Mode.contains : Mode → List (Option Mode)
  | .mk _ _ _ _ cs _ => cs

def Mode.relevance : Mode → Nat
  | .mk _ _ _ _ _ r => r

/-! ### The grammar definition, transcribed from the source -/

/-- Rule `RULE_NAME` with its relevance left as a parameter (the source sets 10). -/
def RULE_NAME_rel (r : Nat) : Mode :=
  .mk (some "title.function") matchRuleName none false [] r

def RULE_NAME : Mode := RULE_NAME_rel 10

/-- Rule `TOKEN_NAME` with its relevance left as a parameter (the source sets 8). -/
def TOKEN_NAME_rel (r : Nat) : Mode :=
  .mk (some "title.class") matchTokenName none false [] r

def TOKEN_NAME : Mode := TOKEN_NAME_rel 8

/-- The library's `BACKSLASH_ESCAPE`: `{begin: /\\[\s\S]/}` with no class. -/
def BACKSLASH_ESCAPE : Mode := .mk none matchBackslashEscape none false [] 0

/-- First variant of `STRING`: single-quote delimited, containing the
backslash-escape rule. -/
def STRING_SQ : Mode :=
  .mk (some "string") (matchLit '\'') (some (matchLit '\'')) false [some BACKSLASH_ESCAPE] 0

/-- Second variant of `STRING`: double-quote delimited. -/
def STRING_DQ : Mode :=
  .mk (some "string") (matchLit '"') (some (matchLit '"')) false [some BACKSLASH_ESCAPE] 0

/-- The library's C line comment mode: `//` up to end of line. -/
def C_LINE_COMMENT_MODE : Mode :=
  .mk (some "comment") (matchLits ['/', '/']) (some matchDollar) false [] 0

/-- The library's C block comment mode. -/
def C_BLOCK_COMMENT_MODE : Mode :=
  .mk (some "comment") (matchLits ['/', '*']) (some (matchLits ['*', '/'])) false [] 0

/-- The anonymous nested mode inside `ACTION_CODE`:
`{begin: /\{/, end: /\}/, contains: ["self"]}`. -/
def ACTION_INNER : Mode :=
  .mk none (matchLit '{') (some (matchLit '}')) false [none] 0

/-- Rule `ACTION_CODE`. -/
def ACTION_CODE : Mode :=
  .mk (some "section") (matchLit '{') (some (matchLit '}')) false
    [some ACTION_INNER, some C_LINE_COMMENT_MODE, some C_BLOCK_COMMENT_MODE,
     some STRING_SQ, some STRING_DQ] 0

/-- The meta-keyword rule inside `OPTION`. -/
def OPTION_META_KEYWORD : Mode := .mk (some "meta-keyword") matchMetaAssign none false [] 0

/-- Rule `OPTION`. -/
def OPTION : Mode :=
  .mk (some "meta") matchOptionsBrace (some (matchLit '}')) false
    [some OPTION_META_KEYWORD, some STRING_SQ, some STRING_DQ,
     some C_LINE_COMMENT_MODE, some C_BLOCK_COMMENT_MODE] 0

/-- The meta-keyword rule inside `HEADER`. -/
def HEADER_META_KEYWORD : Mode := .mk (some "meta-keyword") matchHeaderAt none false [] 0

/-- Rule `HEADER` (note `returnEnd: true`: the opening brace is left for the outer scope). -/
def HEADER : Mode :=
  .mk (some "meta") matchHeaderAt (some (matchLit '{')) true [some HEADER_META_KEYWORD] 0

/-- Rule `GRAMMAR_TYPE`. -/
def GRAMMAR_TYPE : Mode := .mk (some "keyword") matchGrammarType none false [] 0

/-- Rule `OPERATORS`, one of the characters pipe, star, plus, question mark, tilde. -/
def OPERATORS : Mode :=
  .mk (some "operator") (matchAnyOf ['|', '*', '+', '?', '~']) none false [] 0

/-- Rule `SPECIAL_CHARS`, one of the punctuation characters. -/
def SPECIAL_CHARS : Mode :=
  .mk (some "punctuation") (matchAnyOf [';', ':', '(', ')', '[', ']']) none false [] 0

/-- The escaped-character rule inside `RANGE`: `{begin: /\\./}` with no class. -/
def RANGE_ESCAPE : Mode := .mk none matchEscapedAny none false [] 0

/-- The hyphen rule inside `RANGE`: begin is a literal hyphen, class "operator". -/
def RANGE_DASH : Mode := .mk (some "operator") (matchLit '-') none false [] 0

/-- Rule `RANGE`. -/
def RANGE : Mode :=
  .mk (some "string") (matchLit '[') (some (matchLit ']')) false
    [some RANGE_ESCAPE, some RANGE_DASH] 0

/-- Rule `DOT`: a literal dot, class "built_in". -/
def DOT : Mode := .mk (some "built_in") (matchLit '.') none false [] 0

/-- The trailing anonymous `{className: "punctuation", begin: /:/}`. -/
def COLON_PUNCT : Mode := .mk (some "punctuation") (matchLit ':') none false [] 0

/-- The trailing anonymous `{className: "operator", begin: /\|/}`. -/
def PIPE_OPERATOR : Mode := .mk (some "operator") (matchLit '|') none false [] 0

/-- The trailing anonymous `{className: "punctuation", begin: /;/}`. -/
def SEMI_PUNCT : Mode := .mk (some "punctuation") (matchLit ';') none false [] 0

/-- Field `KEYWORDS.keyword`, the declared keyword list. -/
def KEYWORDS : List String :=
  ["grammar", "lexer", "parser", "fragment", "import", "returns", "locals",
   "throws", "catch", "finally", "mode", "pushMode", "popMode", "skip",
   "more", "type", "channel"]

/-- A registered language: name, aliases, case sensitivity, keyword list and
top-level `contains` list. -/
structure Language : Type where
  name : String
  aliases : List String
  case_insensitive : Bool
  keywords : List String
  contains : List Mode

/-- The object returned by `antlrLanguage`, with the two declared relevance
weights (10 for RULE_NAME, 8 for TOKEN_NAME in the source) kept as parameters
so that independence from them can be stated. -/
def antlrLanguage (rRule rTok : Nat) : Language where
  name := "ANTLR"
  aliases := ["antlr4", "g4"]
  case_insensitive := false
  keywords := KEYWORDS
  contains :=
    [C_LINE_COMMENT_MODE, C_BLOCK_COMMENT_MODE, GRAMMAR_TYPE, HEADER, OPTION,
     ACTION_CODE, RULE_NAME_rel rRule, TOKEN_NAME_rel rTok, STRING_SQ, STRING_DQ,
     RANGE, OPERATORS, SPECIAL_CHARS, DOT, COLON_PUNCT, PIPE_OPERATOR, SEMI_PUNCT]

/-- The grammar exactly as the source declares it. -/
def antlr : Language := antlrLanguage 10 8

/-! ### The highlighting engine

Modelled from the spec: the engine itself is the external highlighting library;
the spec describes it as applying the top-level rules in declaration order at
each position (earlier rule wins on overlap), opening a nested span for a
begin/end rule and scanning it with that rule's own `contains` list, resolving
`"self"` to the enclosing rule, classifying keywords in otherwise-unmatched
top-level text via the declared `$pattern`, and ignoring relevance weights
during tokenization. -/

/-- Output of highlighting: a classified token tree. A `text` leaf is a run of
characters with an optional class; a `node` is the span of a begin/end rule,
its children covering the begin lexeme, the interior and the end lexeme. -/
inductive Tok : Type where
  | text (className : Option String) (s : List Char)
  | node (className : Option String) (children : List Tok)

/-- The `contains` list of a mode with `"self"` entries resolved to the mode
itself. -/
def effContains (m : Mode) : List Mode := m.contains.map (fun o => o.getD m)

/-- Try the contained rules in declaration order; the first whose begin matcher
matches at the current position wins. -/
def findFirst : List Mode → Option Char → List Char → Option (Mode × Nat)
  | [], _, _ => none
  | m :: ms, prev, s =>
    match m.beginM prev s with
    | some n => some (m, n)
    | none => findFirst ms prev s

/-- The last character of a consumed lexeme, falling back to the previous one. -/
def lastOr (lex : List Char) (prev : Option Char) : Option Char :=
  match lex.getLast? with
  | some c => some c
  | none => prev

/-- Emit a pending plain-text buffer as a token list (empty buffer: nothing). -/
def emitPlain (buf : List Char) : List Tok :=
  if buf.isEmpty then [] else [Tok.text none buf]

/-- Keyword classification of a plain-text run, per the grammar's
`$pattern` `[a-zA-Z_][a-zA-Z0-9_]*`: each maximal identifier in the run is
classified "keyword" when it is in the keyword list, everything else is left
unclassified. -/
def splitKW (kws : List String) : Nat → List Char → List Char → List Tok
  | 0, acc, s => emitPlain acc ++ emitPlain s
  | _ + 1, acc, [] => emitPlain acc
  | fuel + 1, acc, c :: rest =>
    if isIdentStart c then
      let w := rest.takeWhile isWordChar
      let idt := c :: w
      let cls := if kws.contains (String.mk idt) then some "keyword" else none
      emitPlain acc ++ [Tok.text cls idt] ++ splitKW kws fuel [] (rest.drop w.length)
    else
      splitKW kws fuel (acc ++ [c]) rest

/-- Flush a pending buffer, applying keyword classification only in a scope
that declares keywords (here: the top level). -/
def flushBuf (kws : List String) (kw : Bool) (buf : List Char) : List Tok :=
  if buf.isEmpty then []
  else if kw then splitKW kws (buf.length + 1) [] buf
  else [Tok.text none buf]

/-- One scanning loop inside mode `m` (whose begin lexeme the caller already
consumed). Returns the tokens of the interior (including the consumed end
lexeme unless `returnEnd`), the character before the stop position, and the
unconsumed input. Fuel-indexed; every step spends one unit. -/
def runM (kws : List String) : Nat → Bool → Mode → Option Char → List Char → List Char →
    (List Tok × Option Char × List Char)
  | 0, kw, _, prev, s, buf => (flushBuf kws kw buf, prev, s)
  | _ + 1, kw, _, prev, [], buf => (flushBuf kws kw buf, prev, [])
  | fuel + 1, kw, m, prev, c :: rest, buf =>
    let s := c :: rest
    match findFirst (effContains m) prev s with
    | some (sub, n) =>
      let lex := s.take n
      let s' := s.drop n
      let prev' := lastOr lex prev
      match sub.endM with
      | none =>
        let (toks, prev2, s2) := runM kws fuel kw m prev' s' []
        (flushBuf kws kw buf ++ [Tok.text sub.className lex] ++ toks, prev2, s2)
      | some _ =>
        let (inner, prev2, s2) := runM kws fuel false sub prev' s' []
        let (toks, prev3, s3) := runM kws fuel kw m prev2 s2 []
        (flushBuf kws kw buf ++ [Tok.node sub.className (Tok.text none lex :: inner)] ++ toks,
         prev3, s3)
    | none =>
      match m.endM with
      | some em =>
        match em prev s with
        | some n =>
          if m.returnEnd then (flushBuf kws kw buf, prev, s)
          else
            (flushBuf kws kw buf ++ emitPlain (s.take n), lastOr (s.take n) prev, s.drop n)
        | none => runM kws fuel kw m (some c) rest (buf ++ [c])
      | none => runM kws fuel kw m (some c) rest (buf ++ [c])

/-- Strip the relevance weights from a rule tree: the compile step of the
engine model. Modelled from the spec: relevance weights take no part in
tokenization (they only steer cross-language auto-detection), so the compiled
form the scanner runs on does not carry them. -/
def stripRel : Nat → Mode → Mode
  | 0, m => m
  | fuel + 1, .mk c b e r cont _ => .mk c b e r (cont.map (Option.map (stripRel fuel))) 0

/-- The synthetic root scope of a language: no class, never begins or ends,
containing the language's top-level rules. -/
def rootMode (contains : List Mode) : Mode :=
  .mk none (fun _ _ => none) none false (contains.map some) 0

/-- The compiled root scope of a language. -/
def compileLang (lang : Language) : Mode :=
  rootMode (lang.contains.map (stripRel 8))

/-- Tokenize an input with a language: scan it in the compiled root scope with
keyword classification on. -/
def tokenizeLang (lang : Language) (s : List Char) : List Tok :=
  (runM lang.keywords (4 * s.length + 16) true (compileLang lang) none s []).1

/-- The compiled root scope of the ANTLR grammar. -/
def antlrRoot : Mode := compileLang antlr

/-- Tokenize an input with the ANTLR grammar. -/
def tokenizeAntlr (s : List Char) : List Tok :=
  tokenizeLang antlr s

/-! ### Projections on token trees -/

/-- The flat text of a token forest (fuel-indexed over the tree size). -/
def flatTextF : Nat → List Tok → List Char
  | 0, _ => []
  | _ + 1, [] => []
  | fuel + 1, Tok.text _ s :: ts => s ++ flatTextF fuel ts
  | fuel + 1, Tok.node _ ch :: ts => flatTextF fuel ch ++ flatTextF fuel ts

/-- The sequence of classified spans of a token forest: a classified leaf or
span contributes its class with its full text; unclassified leaves are dropped
and unclassified spans are flattened into their surroundings. -/
def spansF : Nat → List Tok → List (String × String)
  | 0, _ => []
  | _ + 1, [] => []
  | fuel + 1, Tok.text none _ :: ts => spansF fuel ts
  | fuel + 1, Tok.text (some c) s :: ts => (c, String.mk s) :: spansF fuel ts
  | fuel + 1, Tok.node none ch :: ts => spansF fuel ch ++ spansF fuel ts
  | fuel + 1, Tok.node (some c) ch :: ts =>
    (c, String.mk (flatTextF (fuel + 1) ch)) :: spansF fuel ts

/-- The classified spans of a tokenization result. -/
def spans (ts : List Tok) : List (String × String) := spansF 1000 ts

/-! ### Families of inputs for the universally quantified claims -/

/-- Balanced action-block interiors: a sequence of ordinary characters and
balanced nested brace groups. -/
inductive ABody : Type where
  | emp : ABody
  | ch (c : Char) (rest : ABody) : ABody
  | br (inner : ABody) (rest : ABody) : ABody

/-- The text of a balanced interior. -/
def ABody.render : ABody → List Char
  | .emp => []
  | .ch c r => c :: r.render
  | .br i r => '{' :: i.render ++ '}' :: r.render

/-- Ordinary interior characters: not a brace and not the opener of a comment
or string rule contained in the action-block rule. -/
def PlainChar (c : Char) : Prop :=
  c ≠ '{' ∧ c ≠ '}' ∧ c ≠ '/' ∧ c ≠ '\'' ∧ c ≠ '"'

def ABody.Plain : ABody → Prop
  | .emp => True
  | .ch c r => PlainChar c ∧ r.Plain
  | .br i r => i.Plain ∧ r.Plain

/-- Steps the scanner spends on a balanced interior (for fuel bookkeeping). -/
def ABody.cost : ABody → Nat
  | .emp => 1
  | .ch _ r => 1 + r.cost
  | .br i r => 1 + i.cost + r.cost

/-- The tokens the brace scanner produces for a balanced interior followed by
its closing brace, given the pending plain-text buffer. -/
def ABody.toks : ABody → List Char → List Tok
  | .emp, buf => emitPlain buf ++ [Tok.text none ['}']]
  | .ch c r, buf => r.toks (buf ++ [c])
  | .br i r, buf =>
    emitPlain buf ++ [Tok.node none (Tok.text none ['{'] :: i.toks [])] ++ r.toks []

/-- One piece of a string-literal interior: an ordinary character or a
backslash escape. -/
inductive SItem : Type where
  | plain (c : Char) : SItem
  | esc (c : Char) : SItem

def SItem.render : SItem → List Char
  | .plain c => [c]
  | .esc c => ['\\', c]

def renderItems : List SItem → List Char
  | [] => []
  | i :: r => i.render ++ renderItems r

/-- Interior validity for a string delimited by `q`: an ordinary character is
neither the delimiter nor a backslash; an escape may carry any character
(including the delimiter itself). -/
def SItem.ValidFor (q : Char) : SItem → Prop
  | .plain c => c ≠ q ∧ c ≠ '\\'
  | .esc _ => True

/-- The tokens the string scanner produces for an interior followed by the
closing delimiter `q`. -/
def strToks (q : Char) : List SItem → List Char → List Tok
  | [], buf => emitPlain buf ++ [Tok.text none [q]]
  | .plain c :: r, buf => strToks q r (buf ++ [c])
  | .esc c :: r, buf => emitPlain buf ++ [Tok.text none ['\\', c]] ++ strToks q r []

/-- One piece of a character-class interior: an ordinary character, a hyphen,
or a backslash escape. -/
inductive RItem : Type where
  | plain (c : Char) : RItem
  | dash : RItem
  | esc (c : Char) : RItem

def RItem.render : RItem → List Char
  | .plain c => [c]
  | .dash => ['-']
  | .esc c => ['\\', c]

def renderRItems : List RItem → List Char
  | [] => []
  | i :: r => i.render ++ renderRItems r

/-- Interior validity inside `[...]`: an ordinary character is not the closing
bracket, a backslash, or a hyphen; an escaped character is not a newline. -/
def RItem.Valid : RItem → Prop
  | .plain c => c ≠ ']' ∧ c ≠ '\\' ∧ c ≠ '-'
  | .dash => True
  | .esc c => c ≠ '\n'

/-- The tokens the character-class scanner produces: hyphens become operator
tokens, escapes and ordinary characters stay unclassified. -/
def rangeToks : List RItem → List Char → List Tok
  | [], buf => emitPlain buf ++ [Tok.text none [']']]
  | .plain c :: r, buf => rangeToks r (buf ++ [c])
  | .dash :: r, buf => emitPlain buf ++ [Tok.text (some "operator") ['-']] ++ rangeToks r []
  | .esc c :: r, buf => emitPlain buf ++ [Tok.text none ['\\', c]] ++ rangeToks r []

/-! ### The page-initialization glue (from the theme/highlighting script) -/

/-- A `pre code` block of the page: its text, its rendered highlighting (if
any), and its `data-highlighted` attribute. -/
structure CodeBlock : Type where
  content : List Char
  rendered : Option (List Tok)
  dataHighlighted : Bool

/-- The engine's `highlightElement`, applied with the registered grammar
(modelled from the spec: the engine applies the rule set to the block's text
and stores the classified result). -/
def highlightElement (b : CodeBlock) : CodeBlock :=
  { b with rendered := some (tokenizeAntlr b.content) }

/-- Treatment of one block by the highlighting pass: a block carrying the
`data-highlighted` attribute is not selected and stays as it is; any other
block is highlighted and the attribute is set. -/
def processBlock (b : CodeBlock) : CodeBlock :=
  if b.dataHighlighted then b
  else { highlightElement b with dataHighlighted := true }

/-- Function `highlightUnprocessedBlocks` from the source: select only blocks without
the `data-highlighted` attribute, highlight each and set the attribute. -/
def highlightUnprocessedBlocks (bs : List CodeBlock) : List CodeBlock :=
  bs.map processBlock

/-- The page-level state the initialization script manipulates. -/
structure PageState : Type where
  hljsDefined : Bool
  registry : List (String × Language)
  blocks : List CodeBlock

/-- The engine's `registerLanguage` (modelled from the spec: it adds the
grammar to the process-wide registry under the given name). -/
def registerLanguage (nm : String) (lang : Language) (st : PageState) : PageState :=
  { st with registry := st.registry ++ [(nm, lang)] }

/-- Function `initializeHighlighting` from the source: only when `hljs` is defined,
register the ANTLR grammar under "antlr" and highlight the unprocessed
blocks; otherwise do nothing. -/
def initializeHighlighting (st : PageState) : PageState :=
  if st.hljsDefined then
    let st1 := registerLanguage "antlr" antlr st
    { st1 with blocks := highlightUnprocessedBlocks st1.blocks }
  else st

/-! Decidability of the side conditions, so that concrete instances evaluate. -/

instance (c : Char) : Decidable (PlainChar c) := by
  unfold PlainChar; infer_instance

instance instDecidablePlain : (b : ABody) → Decidable b.Plain
  | .emp => inferInstanceAs (Decidable True)
  | .ch _ _ => @instDecidableAnd _ _ inferInstance (instDecidablePlain _)
  | .br _ _ => @instDecidableAnd _ _ (instDecidablePlain _) (instDecidablePlain _)

instance (q : Char) (i : SItem) : Decidable (i.ValidFor q) := by
  cases i <;> unfold SItem.ValidFor <;> infer_instance

instance (i : RItem) : Decidable i.Valid := by
  cases i <;> unfold RItem.Valid <;> infer_instance

/-! ### Lemmas about the matchers -/

lemma matchLit_ne {a c : Char} (h : c ≠ a) (prev : Option Char) (t : List Char) :
    matchLit a prev (c :: t) = none := by
  simp [matchLit, h]

lemma matchLit_self (a : Char) (prev : Option Char) (t : List Char) :
    matchLit a prev (a :: t) = some 1 := by
  simp [matchLit]

lemma matchLits_ne {a c : Char} (h : c ≠ a) (as : List Char) (prev : Option Char)
    (t : List Char) : matchLits (a :: as) prev (c :: t) = none := by
  simp [matchLits, litList, h]

lemma matchBackslashEscape_ne {c : Char} (h : c ≠ '\\') (prev : Option Char) (t : List Char) :
    matchBackslashEscape prev (c :: t) = none := by
  cases t <;> simp [matchBackslashEscape, h]

lemma matchEscapedAny_ne {c : Char} (h : c ≠ '\\') (prev : Option Char) (t : List Char) :
    matchEscapedAny prev (c :: t) = none := by
  cases t <;> simp [matchEscapedAny, h]

lemma matchEscapedAny_esc {c : Char} (h : c ≠ '\n') (prev : Option Char) (t : List Char) :
    matchEscapedAny prev ('\\' :: c :: t) = some 2 := by
  simp [matchEscapedAny, h]

lemma matchHeaderAt_ne {a : Char} (h : a ≠ '@') (prev : Option Char) (t : List Char) :
    matchHeaderAt prev (a :: t) = none := by
  cases t <;> simp [matchHeaderAt, h]

lemma findFirst_cons_none {m : Mode} {ms : List Mode} {prev : Option Char} {s : List Char}
    (h : m.beginM prev s = none) : findFirst (m :: ms) prev s = findFirst ms prev s := by
  simp [findFirst, h]

lemma findFirst_cons_some {m : Mode} {ms : List Mode} {prev : Option Char} {s : List Char}
    {n : Nat} (h : m.beginM prev s = some n) : findFirst (m :: ms) prev s = some (m, n) := by
  simp [findFirst, h]

lemma lastOr_single (c : Char) (prev : Option Char) : lastOr [c] prev = some c := rfl

lemma lastOr_pair (a b : Char) (prev : Option Char) : lastOr [a, b] prev = some b := rfl

/-! ### Step lemmas for the scanner loop -/

/-- Scanner step: nothing begins and the mode does not end here, so one
character moves into the pending buffer. -/
lemma runM_step_consume (kws : List String) (fuel : Nat) (kw : Bool) (m : Mode)
    (prev : Option Char) (c : Char) (rest buf : List Char)
    (hfind : findFirst (effContains m) prev (c :: rest) = none)
    (hend : ∀ em, m.endM = some em → em prev (c :: rest) = none) :
    runM kws (fuel + 1) kw m prev (c :: rest) buf =
      runM kws fuel kw m (some c) rest (buf ++ [c]) := by
  cases m with
  | mk cls bm em re cont rel =>
    cases em with
    | none => simp only [runM, hfind, Mode.endM]
    | some e =>
      have he : e prev (c :: rest) = none := hend e rfl
      simp only [runM, hfind, Mode.endM, he]

/-- Scanner step: nothing begins and the end matcher fires, closing the mode
and consuming the end lexeme. -/
lemma runM_step_end (kws : List String) (fuel : Nat) (kw : Bool) (m : Mode)
    (prev : Option Char) (c : Char) (rest buf : List Char) (em : Matcher) (n : Nat)
    (hfind : findFirst (effContains m) prev (c :: rest) = none)
    (hem : m.endM = some em) (hm : em prev (c :: rest) = some n)
    (hre : m.returnEnd = false) :
    runM kws (fuel + 1) kw m prev (c :: rest) buf =
      (flushBuf kws kw buf ++ emitPlain ((c :: rest).take n),
       lastOr ((c :: rest).take n) prev, (c :: rest).drop n) := by
  cases m with
  | mk cls bm e re cont rel =>
    cases hem
    simp only [Mode.returnEnd] at hre
    subst hre
    simp only [runM, hfind, Mode.endM, hm]
    rfl

/-- Scanner step: the end matcher fires in a `returnEnd` mode, closing it
without consuming the end lexeme. -/
lemma runM_step_retEnd (kws : List String) (fuel : Nat) (kw : Bool) (m : Mode)
    (prev : Option Char) (c : Char) (rest buf : List Char) (em : Matcher) (n : Nat)
    (hfind : findFirst (effContains m) prev (c :: rest) = none)
    (hem : m.endM = some em) (hm : em prev (c :: rest) = some n)
    (hre : m.returnEnd = true) :
    runM kws (fuel + 1) kw m prev (c :: rest) buf = (flushBuf kws kw buf, prev, c :: rest) := by
  cases m with
  | mk cls bm e re cont rel =>
    cases hem
    simp only [Mode.returnEnd] at hre
    subst hre
    simp only [runM, hfind, Mode.endM, hm]
    rfl

/-- Scanner step: a contained rule with no end matcher begins, producing one
classified leaf token. -/
lemma runM_step_openLeaf (kws : List String) (fuel : Nat) (kw : Bool) (m sub : Mode)
    (prev : Option Char) (c : Char) (rest buf : List Char) (n : Nat)
    (hfind : findFirst (effContains m) prev (c :: rest) = some (sub, n))
    (hsub : sub.endM = none) :
    runM kws (fuel + 1) kw m prev (c :: rest) buf =
      (flushBuf kws kw buf ++ [Tok.text sub.className ((c :: rest).take n)]
         ++ (runM kws fuel kw m (lastOr ((c :: rest).take n) prev) ((c :: rest).drop n) []).1,
       (runM kws fuel kw m (lastOr ((c :: rest).take n) prev) ((c :: rest).drop n) []).2.1,
       (runM kws fuel kw m (lastOr ((c :: rest).take n) prev) ((c :: rest).drop n) []).2.2) := by
  simp only [runM, hfind, hsub]

/-- Scanner step: a contained rule with an end matcher begins, opening a
nested span scanned with that rule's own `contains` list. -/
lemma runM_step_openSpan (kws : List String) (fuel : Nat) (kw : Bool) (m sub : Mode)
    (prev : Option Char) (c : Char) (rest buf : List Char) (n : Nat) (e : Matcher)
    (hfind : findFirst (effContains m) prev (c :: rest) = some (sub, n))
    (hsub : sub.endM = some e) :
    runM kws (fuel + 1) kw m prev (c :: rest) buf =
      (flushBuf kws kw buf
         ++ [Tok.node sub.className (Tok.text none ((c :: rest).take n)
              :: (runM kws fuel false sub (lastOr ((c :: rest).take n) prev)
                    ((c :: rest).drop n) []).1)]
         ++ (runM kws fuel kw m
              (runM kws fuel false sub (lastOr ((c :: rest).take n) prev)
                ((c :: rest).drop n) []).2.1
              (runM kws fuel false sub (lastOr ((c :: rest).take n) prev)
                ((c :: rest).drop n) []).2.2
              []).1,
       (runM kws fuel kw m
         (runM kws fuel false sub (lastOr ((c :: rest).take n) prev)
           ((c :: rest).drop n) []).2.1
         (runM kws fuel false sub (lastOr ((c :: rest).take n) prev)
           ((c :: rest).drop n) []).2.2
         []).2) := by
  simp only [runM, hfind, hsub]

/-- On empty input the scanner flushes its buffer and stops. -/
lemma runM_nil (kws : List String) (fuel : Nat) (kw : Bool) (m : Mode) (prev : Option Char)
    (buf : List Char) : runM kws fuel kw m prev [] buf = (flushBuf kws kw buf, prev, []) := by
  cases fuel <;> rfl

/-! ### The balanced-brace scanner -/

lemma findFirst_inner_none {c : Char} (h : c ≠ '{') (prev : Option Char) (t : List Char) :
    findFirst (effContains ACTION_INNER) prev (c :: t) = none := by
  show findFirst [ACTION_INNER] prev (c :: t) = none
  rw [findFirst_cons_none
        (show ACTION_INNER.beginM prev (c :: t) = none from matchLit_ne h prev t)]
  rfl

lemma endInner_none {c : Char} (h : c ≠ '}') (prev : Option Char) (t : List Char) :
    ∀ em, ACTION_INNER.endM = some em → em prev (c :: t) = none := by
  intro em he
  have : some (matchLit '}') = some em := he
  cases this
  exact matchLit_ne h prev t

/-- Interior scan of the anonymous nested brace rule: a balanced interior
followed by its closing brace is consumed exactly up to that brace, with one
unclassified span per nested group. -/
lemma runInner (b : ABody) : ∀ (fuel : Nat) (prev : Option Char) (buf rest : List Char),
    b.Plain → b.cost ≤ fuel →
    runM KEYWORDS fuel false ACTION_INNER prev (b.render ++ '}' :: rest) buf
      = (b.toks buf, some '}', rest) := by
  induction b with
  | emp =>
    intro fuel prev buf rest _ hc
    cases fuel with
    | zero => exact absurd hc (by decide)
    | succ f => rfl
  | ch c r ih =>
    intro fuel prev buf rest hp hc
    obtain ⟨hpc, hpr⟩ := hp
    cases fuel with
    | zero => exact absurd hc (by simp [ABody.cost])
    | succ f =>
      simp only [ABody.render, List.cons_append]
      rw [runM_step_consume KEYWORDS f false ACTION_INNER prev c (r.render ++ '}' :: rest) buf
            (findFirst_inner_none hpc.1 prev _) (endInner_none hpc.2.1 prev _)]
      rw [ih f (some c) (buf ++ [c]) rest hpr (by simp [ABody.cost] at hc; omega)]
      rfl
  | br i r ihi ihr =>
    intro fuel prev buf rest hp hc
    obtain ⟨hpi, hpr⟩ := hp
    cases fuel with
    | zero => exact absurd hc (by simp [ABody.cost])
    | succ f =>
      have hci : i.cost ≤ f := by simp [ABody.cost] at hc; omega
      have hcr : r.cost ≤ f := by simp [ABody.cost] at hc; omega
      simp only [ABody.render, List.cons_append, List.append_assoc]
      rw [runM_step_openSpan KEYWORDS f false ACTION_INNER ACTION_INNER prev '{'
            (i.render ++ '}' :: (r.render ++ '}' :: rest)) buf 1 (matchLit '}')
            (findFirst_cons_some rfl) rfl]
      simp only [List.take_succ_cons, List.take_zero, List.drop_succ_cons, List.drop_zero,
        lastOr_single]
      rw [ihi f (some '{') [] (r.render ++ '}' :: rest) hpi hci]
      rw [ihr f (some '}') [] rest hpr hcr]
      rfl

lemma findFirst_AC_none {c : Char} (hp : PlainChar c) (prev : Option Char) (t : List Char) :
    findFirst (effContains ACTION_CODE) prev (c :: t) = none := by
  obtain ⟨h1, h2, h3, h4, h5⟩ := hp
  show findFirst [ACTION_INNER, C_LINE_COMMENT_MODE, C_BLOCK_COMMENT_MODE,
    STRING_SQ, STRING_DQ] prev (c :: t) = none
  rw [findFirst_cons_none (show ACTION_INNER.beginM prev (c :: t) = none from
        matchLit_ne h1 prev t),
      findFirst_cons_none (show C_LINE_COMMENT_MODE.beginM prev (c :: t) = none from
        matchLits_ne h3 _ prev t),
      findFirst_cons_none (show C_BLOCK_COMMENT_MODE.beginM prev (c :: t) = none from
        matchLits_ne h3 _ prev t),
      findFirst_cons_none (show STRING_SQ.beginM prev (c :: t) = none from
        matchLit_ne h4 prev t),
      findFirst_cons_none (show STRING_DQ.beginM prev (c :: t) = none from
        matchLit_ne h5 prev t)]
  rfl

lemma endAC_none {c : Char} (h : c ≠ '}') (prev : Option Char) (t : List Char) :
    ∀ em, ACTION_CODE.endM = some em → em prev (c :: t) = none := by
  intro em he
  have : some (matchLit '}') = some em := he
  cases this
  exact matchLit_ne h prev t

/-- Interior scan of the ACTION_CODE rule: a balanced interior followed by its
closing brace is consumed exactly up to and including that brace; nested
groups are scanned by the anonymous nested rule, never ending the block at an
inner closing brace. -/
lemma runAC (b : ABody) : ∀ (fuel : Nat) (prev : Option Char) (buf rest : List Char),
    b.Plain → b.cost ≤ fuel →
    runM KEYWORDS fuel false ACTION_CODE prev (b.render ++ '}' :: rest) buf
      = (b.toks buf, some '}', rest) := by
  induction b with
  | emp =>
    intro fuel prev buf rest _ hc
    cases fuel with
    | zero => exact absurd hc (by decide)
    | succ f => rfl
  | ch c r ih =>
    intro fuel prev buf rest hp hc
    obtain ⟨hpc, hpr⟩ := hp
    cases fuel with
    | zero => exact absurd hc (by simp [ABody.cost])
    | succ f =>
      simp only [ABody.render, List.cons_append]
      rw [runM_step_consume KEYWORDS f false ACTION_CODE prev c (r.render ++ '}' :: rest) buf
            (findFirst_AC_none hpc prev _) (endAC_none hpc.2.1 prev _)]
      rw [ih f (some c) (buf ++ [c]) rest hpr (by simp [ABody.cost] at hc; omega)]
      rfl
  | br i r ihi ihr =>
    intro fuel prev buf rest hp hc
    obtain ⟨hpi, hpr⟩ := hp
    cases fuel with
    | zero => exact absurd hc (by simp [ABody.cost])
    | succ f =>
      have hci : i.cost ≤ f := by simp [ABody.cost] at hc; omega
      have hcr : r.cost ≤ f := by simp [ABody.cost] at hc; omega
      simp only [ABody.render, List.cons_append, List.append_assoc]
      rw [runM_step_openSpan KEYWORDS f false ACTION_CODE ACTION_INNER prev '{'
            (i.render ++ '}' :: (r.render ++ '}' :: rest)) buf 1 (matchLit '}')
            (findFirst_cons_some rfl) rfl]
      simp only [List.take_succ_cons, List.take_zero, List.drop_succ_cons, List.drop_zero,
        lastOr_single]
      rw [runInner i f (some '{') [] (r.render ++ '}' :: rest) hpi hci]
      rw [ihr f (some '}') [] rest hpr hcr]
      rfl

lemma ABody.cost_le (b : ABody) : b.cost ≤ b.render.length + 1 := by
  induction b with
  | emp => simp [ABody.cost, ABody.render]
  | ch c r ih => simp [ABody.cost, ABody.render]; omega
  | br i r ihi ihr => simp [ABody.cost, ABody.render]; omega

lemma findFirst_root_openBrace (t : List Char) :
    findFirst (effContains (compileLang antlr)) none ('{' :: t) = some (ACTION_CODE, 1) := by
  show findFirst [C_LINE_COMMENT_MODE, C_BLOCK_COMMENT_MODE, GRAMMAR_TYPE, HEADER, OPTION,
    ACTION_CODE, RULE_NAME_rel 0, TOKEN_NAME_rel 0, STRING_SQ, STRING_DQ, RANGE, OPERATORS,
    SPECIAL_CHARS, DOT, COLON_PUNCT, PIPE_OPERATOR, SEMI_PUNCT] none ('{' :: t)
      = some (ACTION_CODE, 1)
  rw [findFirst_cons_none (show C_LINE_COMMENT_MODE.beginM none ('{' :: t) = none from rfl),
      findFirst_cons_none (show C_BLOCK_COMMENT_MODE.beginM none ('{' :: t) = none from rfl),
      findFirst_cons_none (show GRAMMAR_TYPE.beginM none ('{' :: t) = none from rfl),
      findFirst_cons_none (show HEADER.beginM none ('{' :: t) = none from
        matchHeaderAt_ne (by decide) none t),
      findFirst_cons_none (show OPTION.beginM none ('{' :: t) = none from rfl)]
  exact findFirst_cons_some rfl

/-- Entering an action block from the top level of the grammar: the whole
input from the opening brace to the matching closing brace becomes one
"section" span. -/
lemma tokenize_entry (b : ABody) (hp : b.Plain) (fuel : Nat) (hf : b.cost ≤ fuel) :
    (runM KEYWORDS (fuel + 1) true (compileLang antlr) none ('{' :: (b.render ++ ['}'])) []).1
      = [Tok.node (some "section") (Tok.text none ['{'] :: b.toks [])] := by
  rw [runM_step_openSpan KEYWORDS fuel true (compileLang antlr) ACTION_CODE none '{'
        (b.render ++ ['}']) [] 1 (matchLit '}') (findFirst_root_openBrace _) rfl]
  simp only [List.take_succ_cons, List.take_zero, List.drop_succ_cons, List.drop_zero,
    lastOr_single]
  rw [show (b.render ++ ['}'] : List Char) = b.render ++ '}' :: [] from rfl]
  rw [runAC b fuel (some '{') [] [] hp hf]
  rw [runM_nil]
  rfl

/-! ### The string-literal scanner -/

/-- Interior scan of a string mode delimited by `q`: ordinary characters
(including the other quote style) are buffered, backslash escapes (including
an escaped delimiter) are consumed whole by the escape rule, and the scan
stops exactly at the first unescaped delimiter. -/
lemma runString (q : Char) (hq : q ≠ '\\') (items : List SItem) :
    ∀ (fuel : Nat) (prev : Option Char) (buf rest : List Char),
    (∀ i ∈ items, i.ValidFor q) → items.length + 1 ≤ fuel →
    runM KEYWORDS fuel false
        (Mode.mk (some "string") (matchLit q) (some (matchLit q)) false
          [some BACKSLASH_ESCAPE] 0)
        prev (renderItems items ++ q :: rest) buf
      = (strToks q items buf, some q, rest) := by
  set SM : Mode := Mode.mk (some "string") (matchLit q) (some (matchLit q)) false
    [some BACKSLASH_ESCAPE] 0 with hSM
  induction items with
  | nil =>
    intro fuel prev buf rest _ hc
    cases fuel with
    | zero => omega
    | succ f =>
      show runM KEYWORDS (f + 1) false SM prev (q :: rest) buf = _
      rw [runM_step_end KEYWORDS f false SM prev q rest buf (matchLit q) 1
            (by show findFirst [BACKSLASH_ESCAPE] prev (q :: rest) = none
                rw [findFirst_cons_none (show BACKSLASH_ESCAPE.beginM prev (q :: rest) = none
                      from matchBackslashEscape_ne hq prev rest)]
                rfl)
            rfl (matchLit_self q prev rest) rfl]
      simp only [List.take_succ_cons, List.take_zero, List.drop_succ_cons, List.drop_zero,
        lastOr_single]
      rfl
  | cons i r ih =>
    intro fuel prev buf rest hv hc
    cases fuel with
    | zero => simp at hc
    | succ f =>
      have hvr : ∀ j ∈ r, j.ValidFor q := fun j hj => hv j (List.mem_cons_of_mem i hj)
      have hcr : r.length + 1 ≤ f := by simp [List.length_cons] at hc; omega
      cases i with
      | plain c =>
        obtain ⟨h1, h2⟩ := hv (SItem.plain c) (List.mem_cons_self _ _)
        show runM KEYWORDS (f + 1) false SM prev (c :: (renderItems r ++ q :: rest)) buf = _
        rw [runM_step_consume KEYWORDS f false SM prev c (renderItems r ++ q :: rest) buf
              (by show findFirst [BACKSLASH_ESCAPE] prev _ = none
                  rw [findFirst_cons_none (show BACKSLASH_ESCAPE.beginM prev _ = none
                        from matchBackslashEscape_ne h2 prev _)]
                  rfl)
              (by intro em he
                  have : some (matchLit q) = some em := he
                  cases this
                  exact matchLit_ne h1 prev _)]
        rw [ih f (some c) (buf ++ [c]) rest hvr hcr]
        rfl
      | esc c =>
        show runM KEYWORDS (f + 1) false SM prev
          ('\\' :: c :: (renderItems r ++ q :: rest)) buf = _
        rw [runM_step_openLeaf KEYWORDS f false SM BACKSLASH_ESCAPE prev '\\'
              (c :: (renderItems r ++ q :: rest)) buf 2
              (findFirst_cons_some rfl) rfl]
        simp only [List.take_succ_cons, List.take_zero, List.drop_succ_cons, List.drop_zero,
          lastOr_pair]
        rw [ih f (some c) [] rest hvr hcr]
        rfl

/-! ### The character-class scanner -/

lemma findFirst_range_none {c : Char} (h1 : c ≠ '\\') (h2 : c ≠ '-') (prev : Option Char)
    (t : List Char) : findFirst (effContains RANGE) prev (c :: t) = none := by
  show findFirst [RANGE_ESCAPE, RANGE_DASH] prev (c :: t) = none
  rw [findFirst_cons_none (show RANGE_ESCAPE.beginM prev (c :: t) = none from
        matchEscapedAny_ne h1 prev t),
      findFirst_cons_none (show RANGE_DASH.beginM prev (c :: t) = none from
        matchLit_ne h2 prev t)]
  rfl

/-- Interior scan of the RANGE rule: an unescaped hyphen becomes an operator
token, a backslash escape is consumed whole without a class, ordinary
characters are buffered, and the scan stops at the closing bracket. -/
lemma runRange (items : List RItem) :
    ∀ (fuel : Nat) (prev : Option Char) (buf rest : List Char),
    (∀ i ∈ items, i.Valid) → items.length + 1 ≤ fuel →
    runM KEYWORDS fuel false RANGE prev (renderRItems items ++ ']' :: rest) buf
      = (rangeToks items buf, some ']', rest) := by
  induction items with
  | nil =>
    intro fuel prev buf rest _ hc
    cases fuel with
    | zero => omega
    | succ f =>
      show runM KEYWORDS (f + 1) false RANGE prev (']' :: rest) buf = _
      rw [runM_step_end KEYWORDS f false RANGE prev ']' rest buf (matchLit ']') 1
            (findFirst_range_none (by decide) (by decide) prev rest)
            rfl (matchLit_self ']' prev rest) rfl]
      simp only [List.take_succ_cons, List.take_zero, List.drop_succ_cons, List.drop_zero,
        lastOr_single]
      rfl
  | cons i r ih =>
    intro fuel prev buf rest hv hc
    cases fuel with
    | zero => simp at hc
    | succ f =>
      have hvr : ∀ j ∈ r, j.Valid := fun j hj => hv j (List.mem_cons_of_mem i hj)
      have hcr : r.length + 1 ≤ f := by simp [List.length_cons] at hc; omega
      cases i with
      | plain c =>
        obtain ⟨h1, h2, h3⟩ := hv (RItem.plain c) (List.mem_cons_self _ _)
        show runM KEYWORDS (f + 1) false RANGE prev
          (c :: (renderRItems r ++ ']' :: rest)) buf = _
        rw [runM_step_consume KEYWORDS f false RANGE prev c (renderRItems r ++ ']' :: rest) buf
              (findFirst_range_none h2 h3 prev _)
              (by intro em he
                  have : some (matchLit ']') = some em := he
                  cases this
                  exact matchLit_ne h1 prev _)]
        rw [ih f (some c) (buf ++ [c]) rest hvr hcr]
        rfl
      | dash =>
        show runM KEYWORDS (f + 1) false RANGE prev
          ('-' :: (renderRItems r ++ ']' :: rest)) buf = _
        rw [runM_step_openLeaf KEYWORDS f false RANGE RANGE_DASH prev '-'
              (renderRItems r ++ ']' :: rest) buf 1
              (by show findFirst [RANGE_ESCAPE, RANGE_DASH] prev _ = some (RANGE_DASH, 1)
                  rw [findFirst_cons_none (show RANGE_ESCAPE.beginM prev _ = none from
                        matchEscapedAny_ne (by decide) prev _)]
                  exact findFirst_cons_some (show RANGE_DASH.beginM prev
                    ('-' :: (renderRItems r ++ ']' :: rest)) = some 1 from
                    matchLit_self '-' prev (renderRItems r ++ ']' :: rest)))
              rfl]
        simp only [List.take_succ_cons, List.take_zero, List.drop_succ_cons, List.drop_zero,
          lastOr_single]
        rw [ih f (some '-') [] rest hvr hcr]
        rfl
      | esc c =>
        have hn : c ≠ '\n' := hv (RItem.esc c) (List.mem_cons_self _ _)
        show runM KEYWORDS (f + 1) false RANGE prev
          ('\\' :: c :: (renderRItems r ++ ']' :: rest)) buf = _
        rw [runM_step_openLeaf KEYWORDS f false RANGE RANGE_ESCAPE prev '\\'
              (c :: (renderRItems r ++ ']' :: rest)) buf 2
              (findFirst_cons_some (show RANGE_ESCAPE.beginM prev
                ('\\' :: c :: (renderRItems r ++ ']' :: rest)) = some 2 from
                matchEscapedAny_esc hn prev (renderRItems r ++ ']' :: rest))) rfl]
        simp only [List.take_succ_cons, List.take_zero, List.drop_succ_cons, List.drop_zero,
          lastOr_pair]
        rw [ih f (some c) [] rest hvr hcr]
        rfl

/-! ### First-match selection -/

/-- Selection among contained rules is by least index: whenever some rule at
index `i` matches, the selected rule is at an index at most `i`. -/
lemma findFirst_min (cs : List Mode) (prev : Option Char) (s : List Char) :
    ∀ i (hi : i < cs.length) n, (cs.get ⟨i, hi⟩).beginM prev s = some n →
    ∃ k, ∃ (hk : k < cs.length), ∃ m, k ≤ i ∧ (cs.get ⟨k, hk⟩).beginM prev s = some m ∧
      findFirst cs prev s = some (cs.get ⟨k, hk⟩, m) := by
  induction cs with
  | nil => intro i hi; exact absurd hi (by simp)
  | cons m0 ms ih =>
    intro i hi n h
    cases hm : m0.beginM prev s with
    | some n0 =>
      exact ⟨0, by simp, n0, Nat.zero_le i, hm, findFirst_cons_some hm⟩
    | none =>
      cases i with
      | zero =>
        have h0 : m0.beginM prev s = some n := h
        rw [h0] at hm
        exact Option.noConfusion hm
      | succ j =>
        have hj : j < ms.length := by simpa using hi
        obtain ⟨k, hk, mm, hle, hb, hff⟩ := ih j hj n h
        exact ⟨k + 1, by simpa using hk, mm, Nat.succ_le_succ hle, hb,
          by rw [findFirst_cons_none hm]; exact hff⟩

/-! ### The highlighting pass on blocks -/

lemma processBlock_marked (b : CodeBlock) : (processBlock b).dataHighlighted = true := by
  by_cases h : b.dataHighlighted <;> simp [processBlock, h]

lemma processBlock_of_marked {b : CodeBlock} (h : b.dataHighlighted = true) :
    processBlock b = b := by
  simp [processBlock, h]

lemma processBlock_idem (b : CodeBlock) : processBlock (processBlock b) = processBlock b :=
  processBlock_of_marked (processBlock_marked b)

/-! ### Concrete inputs used by the claim witnesses -/

/-- Input of the end-to-end scenario of the specification. -/
def inputC1 : List Char := "grammar Foo; fragment X: 'a'..'z';".data

/-- Interior of the nested action block of the specification's example,
the characters of " a { b } c " with the inner braces as a nested group. -/
def actionExample : ABody :=
  .ch ' ' (.ch 'a' (.ch ' ' (.br (.ch ' ' (.ch 'b' (.ch ' ' .emp)))
    (.ch ' ' (.ch 'c' (.ch ' ' .emp))))))

/-- Interior of the single-quoted string of the specification's example,
the pieces of `it\'s ok` (with the escaped quote as one escape item). -/
def sqExample : List SItem :=
  [.plain 'i', .plain 't', .esc '\'', .plain 's', .plain ' ', .plain 'o', .plain 'k']

/-- Interior of a double-quoted string holding an escaped double quote and a
bare single quote. -/
def dqExample : List SItem := [.plain 'a', .esc '"', .plain '\'']

/-- Interior of the character class of the specification's example `[a-z]`,
extended with an escaped hyphen. -/
def rangeExample : List RItem := [.plain 'a', .dash, .plain 'z', .esc '-']

/-! ### The claims -/

/-- C1, counterexample: on the input
`grammar Foo; fragment X: 'a'..'z';` the grammar does not produce the
claimed sequence keyword - token-name(`Foo`) - punctuation - keyword -
token-name - punctuation - string - operator(`..`) - string - punctuation. -/
theorem claim_C1_counterexample : spans (tokenizeAntlr inputC1) ≠
    [("keyword", "grammar"), ("title.class", "Foo"), ("punctuation", ";"),
     ("keyword", "fragment"), ("title.class", "X"), ("punctuation", ":"),
     ("string", "'a'"), ("operator", ".."), ("string", "'z'"),
     ("punctuation", ";")] := by
  decide

/-- C1, amended: on `grammar Foo; fragment X: 'a'..'z';` the grammar
classifies, in order, keyword(`grammar`), token-name(`F`) (only the leading
capital of `Foo`; `oo` stays unclassified), punctuation(`;`),
keyword(`fragment`), token-name(`X`), punctuation(`:`), string(`'a'`), two
built_in dots (`.` twice, not a single `..` operator), string(`'z'`),
punctuation(`;`). -/
theorem claim_C1_amended : spans (tokenizeAntlr inputC1) =
    [("keyword", "grammar"), ("title.class", "F"), ("punctuation", ";"),
     ("keyword", "fragment"), ("title.class", "X"), ("punctuation", ":"),
     ("string", "'a'"), ("built_in", "."), ("built_in", "."), ("string", "'z'"),
     ("punctuation", ";")] := by
  decide

/-- C2: for every balanced brace interior, however deeply nested, the
action-block rule's span runs from the opening brace to the balanced matching
closing brace: the interior scan consumes the whole interior and stops exactly
at the matching brace (never at an inner one), and from the top level the
whole block becomes a single "section" span. -/
theorem claim_C2 : ∀ (b : ABody), b.Plain →
    (∀ (fuel : Nat) (prev : Option Char) (rest : List Char), b.cost ≤ fuel →
      runM KEYWORDS fuel false ACTION_CODE prev (b.render ++ '}' :: rest) []
        = (b.toks [], some '}', rest))
    ∧ tokenizeAntlr ('{' :: (b.render ++ ['}'])) =
        [Tok.node (some "section") (Tok.text none ['{'] :: b.toks [])] :=
  fun b hp =>
    ⟨fun fuel prev rest hc => runAC b fuel prev [] rest hp hc,
     tokenize_entry b hp (4 * ('{' :: (b.render ++ ['}'])).length + 15)
       (by have := b.cost_le; simp [List.length_cons, List.length_append]; omega)⟩

/-- C2, witness: the specification's example `{ a { b } c }`. -/
theorem claim_C2_witness :
    actionExample.Plain ∧
    (runM KEYWORDS 20 false ACTION_CODE none (actionExample.render ++ '}' :: []) []
        = (actionExample.toks [], some '}', [])
      ∧ tokenizeAntlr ('{' :: (actionExample.render ++ ['}'])) =
          [Tok.node (some "section") (Tok.text none ['{'] :: actionExample.toks [])]) :=
  ⟨by decide,
   (claim_C2 actionExample (by decide)).1 20 none [] (by decide),
   (claim_C2 actionExample (by decide)).2⟩

/-- C3: a single-quoted string is closed only by a single quote and a
double-quoted one only by a double quote (an interior quote of the other style
is an ordinary character), and a backslash-escaped quote does not terminate
the literal: the scan of the interior consumes every item, escaped quotes
included, and stops exactly at the next unescaped matching delimiter. -/
theorem claim_C3 : ∀ (items : List SItem) (fuel : Nat) (prev : Option Char)
    (rest : List Char), items.length + 1 ≤ fuel →
    ((∀ i ∈ items, i.ValidFor '\'') →
      runM KEYWORDS fuel false STRING_SQ prev (renderItems items ++ '\'' :: rest) []
        = (strToks '\'' items [], some '\'', rest))
  ∧ ((∀ i ∈ items, i.ValidFor '"') →
      runM KEYWORDS fuel false STRING_DQ prev (renderItems items ++ '"' :: rest) []
        = (strToks '"' items [], some '"', rest)) :=
  fun items fuel prev rest hf =>
    ⟨fun hv => runString '\'' (by decide) items fuel prev [] rest hv hf,
     fun hv => runString '"' (by decide) items fuel prev [] rest hv hf⟩

/-- C3, witness: the specification's example `'it\'s ok'`, and a double-quoted
string containing a bare single quote. -/
theorem claim_C3_witness :
    (runM KEYWORDS 10 false STRING_SQ none (renderItems sqExample ++ '\'' :: []) []
      = (strToks '\'' sqExample [], some '\'', []))
  ∧ (runM KEYWORDS 10 false STRING_DQ none (renderItems dqExample ++ '"' :: []) []
      = (strToks '"' dqExample [], some '"', [])) :=
  ⟨(claim_C3 sqExample 10 none [] (by decide)).1 (by decide),
   (claim_C3 dqExample 10 none [] (by decide)).2 (by decide)⟩

/-- C4, counterexample: the mixed-case identifier `Foo`, which begins with an
uppercase letter, is not classified as a token reference as a whole: only its
leading capital is, the rest stays unclassified. -/
theorem claim_C4_counterexample :
    spans (tokenizeAntlr ('F' :: 'o' :: 'o' :: [])) = [("title.class", "F")] ∧
    spans (tokenizeAntlr ('F' :: 'o' :: 'o' :: [])) ≠ [("title.class", "Foo")] := by
  decide

/-- C4, amended: classification is decided by the first character's case, but
with different extents: a lowercase-starting identifier at a rule-name-eligible
position (a line start) is matched in full as a rule reference
(title.function), while an uppercase-starting one is matched as a token
reference (title.class) only over its maximal run of capitals, digits and
underscores. -/
theorem claim_C4_amended : ∀ (prev : Option Char) (c : Char) (rest : List Char),
    (atLineStart prev = true → isLowerAZ c = true →
      RULE_NAME.beginM prev (c :: rest) = some (1 + (rest.takeWhile isWordChar).length))
  ∧ (isUpperAZ c = true →
      TOKEN_NAME.beginM prev (c :: rest) = some (1 + (rest.takeWhile isTokenChar).length)) := by
  intro prev c rest
  constructor
  · intro h1 h2
    show matchRuleName prev (c :: rest) = _
    simp [matchRuleName, h1, h2]
  · intro h
    show matchTokenName prev (c :: rest) = _
    simp [matchTokenName, h]

/-- C4, witness: `expr` at a line start as a rule reference; `Foo` after a
space as a token reference over `F` alone. -/
theorem claim_C4_witness :
    atLineStart none = true ∧ isLowerAZ 'e' = true ∧ isUpperAZ 'F' = true ∧
    RULE_NAME.beginM none ('e' :: "xpr".data)
      = some (1 + ("xpr".data.takeWhile isWordChar).length) ∧
    TOKEN_NAME.beginM (some ' ') ('F' :: "oo".data)
      = some (1 + ("oo".data.takeWhile isTokenChar).length) :=
  ⟨rfl, rfl, rfl, (claim_C4_amended none 'e' "xpr".data).1 rfl rfl,
   (claim_C4_amended (some ' ') 'F' "oo".data).2 rfl⟩

/-- C5: inside a character-class range the scan classifies an unescaped hyphen
as an operator token, while backslash-escaped characters are consumed whole
with no class, and ordinary characters stay unclassified; the scan stops at
the closing bracket. -/
theorem claim_C5 : ∀ (items : List RItem) (fuel : Nat) (prev : Option Char)
    (rest : List Char), (∀ i ∈ items, i.Valid) → items.length + 1 ≤ fuel →
    runM KEYWORDS fuel false RANGE prev (renderRItems items ++ ']' :: rest) []
      = (rangeToks items [], some ']', rest) :=
  fun items fuel prev rest hv hf => runRange items fuel prev [] rest hv hf

/-- C5, witness: the interior of `[a-z\-]`. -/
theorem claim_C5_witness :
    runM KEYWORDS 10 false RANGE none (renderRItems rangeExample ++ ']' :: []) []
      = (rangeToks rangeExample [], some ']', []) :=
  claim_C5 rangeExample 10 none [] (by decide) (by decide)

/-- C6: among the grammar's top-level rules, whenever the rule at index `i`
could begin a match at the current position, the rule the scanner selects
(and whose display class is applied) is the matching rule of least index - an
earlier-declared rule always beats a later one at the same position. -/
theorem claim_C6 : ∀ (prev : Option Char) (s : List Char) (i : Nat)
    (hi : i < (effContains antlrRoot).length) (n : Nat),
    ((effContains antlrRoot).get ⟨i, hi⟩).beginM prev s = some n →
    ∃ k, ∃ (hk : k < (effContains antlrRoot).length), ∃ m, k ≤ i ∧
      ((effContains antlrRoot).get ⟨k, hk⟩).beginM prev s = some m ∧
      findFirst (effContains antlrRoot) prev s = some ((effContains antlrRoot).get ⟨k, hk⟩, m) :=
  fun _ s i hi n h => findFirst_min _ _ s i hi n h

/-- C6, witness: at an opening bracket both RANGE (index 10) and
SPECIAL_CHARS (index 12) could match; the selected rule has index at most 12
(it is RANGE). -/
theorem claim_C6_witness :
    ∃ k, ∃ (hk : k < (effContains antlrRoot).length), ∃ m, k ≤ 12 ∧
      ((effContains antlrRoot).get ⟨k, hk⟩).beginM none ('[' :: ']' :: []) = some m ∧
      findFirst (effContains antlrRoot) none ('[' :: ']' :: []) =
        some ((effContains antlrRoot).get ⟨k, hk⟩, m) :=
  claim_C6 none ('[' :: ']' :: []) 12 (by decide) 1 (by decide)

/-- C7: the tokenization of every input is unchanged when the numeric
relevance weights attached to the rules (10 on RULE_NAME, 8 on TOKEN_NAME in
the source) are replaced by any other values: relevance plays no part in
which rule wins within the grammar. -/
theorem claim_C7 : ∀ (rRule rTok : Nat) (s : List Char),
    tokenizeLang (antlrLanguage rRule rTok) s = tokenizeLang antlr s :=
  fun _ _ _ => rfl

/-- C8: the highlighting pass is idempotent at the block level: after a pass
every block carries the processed mark, and a second pass over the result
changes nothing. -/
theorem claim_C8 : ∀ (bs : List CodeBlock),
    (highlightUnprocessedBlocks bs).all (fun b => b.dataHighlighted) = true
    ∧ highlightUnprocessedBlocks (highlightUnprocessedBlocks bs)
        = highlightUnprocessedBlocks bs := by
  intro bs
  constructor
  · rw [List.all_eq_true]
    intro b hb
    rw [highlightUnprocessedBlocks, List.mem_map] at hb
    obtain ⟨a, _, rfl⟩ := hb
    exact processBlock_marked a
  · show (bs.map processBlock).map processBlock = bs.map processBlock
    rw [List.map_map]
    exact List.map_congr_left fun a _ => processBlock_idem a

/-- C9: the RULE_NAME matcher is anchored to line starts: wherever the
previous character exists and is not a newline, RULE_NAME matches nothing, so
a lowercase identifier not at a line start is never classified by it. -/
theorem claim_C9 : ∀ (prev : Option Char) (s : List Char),
    atLineStart prev = false → RULE_NAME.beginM prev s = none := by
  intro prev s h
  show matchRuleName prev s = none
  simp [matchRuleName, h]

/-- C9, witness: after the character `x`, the identifier `foo` is not matched
by RULE_NAME. -/
theorem claim_C9_witness :
    atLineStart (some 'x') = false
    ∧ RULE_NAME.beginM (some 'x') ('f' :: 'o' :: 'o' :: []) = none :=
  ⟨rfl, claim_C9 (some 'x') ('f' :: 'o' :: 'o' :: []) rfl⟩

/-- C10: when the highlighting engine is undefined, initialization does
nothing (no registration, no highlighting, and it is a total function, so no
exception); when it is defined, the grammar is registered under "antlr" and
the unprocessed blocks are highlighted. -/
theorem claim_C10 : ∀ (st : PageState),
    (st.hljsDefined = false → initializeHighlighting st = st)
  ∧ (st.hljsDefined = true →
      (initializeHighlighting st).registry = st.registry ++ [("antlr", antlr)]
      ∧ (initializeHighlighting st).blocks = highlightUnprocessedBlocks st.blocks) := by
  intro st
  constructor
  · intro h
    simp [initializeHighlighting, h]
  · intro h
    constructor <;> simp [initializeHighlighting, registerLanguage, h]

/-- C10, witness: a page without the engine is left untouched; a page with the
engine gets the "antlr" registration and highlighted blocks. -/
theorem claim_C10_witness :
    initializeHighlighting ⟨false, [], []⟩ = ⟨false, [], []⟩ ∧
    ((initializeHighlighting ⟨true, [], []⟩).registry = [] ++ [("antlr", antlr)]
      ∧ (initializeHighlighting ⟨true, [], []⟩).blocks = highlightUnprocessedBlocks []) :=
  ⟨(claim_C10 ⟨false, [], []⟩).1 rfl, (claim_C10 ⟨true, [], []⟩).2 rfl⟩

end Site
